import Mathlib

/-!
Verification of the localdb library (Go): schema versioning and upgrade
engine, transaction-safety wrapper, and concurrent prepared-statement
cache, as a shallow embedding in Lean.

Machine integers (`int32`, `int`) are modelled as `Int`; migration-script
execution and the SQL engine are modelled as environment oracles passed in
as functions.  Go errors are the `Err` type; a Go `panic` is modelled
explicitly where it matters (a `panicked` flag / an `Option` result).
-/

namespace LocalDB

/-- Errors produced by the library.  `appIdMismatch` and `versionTooHigh`
mirror the two `fmt.Errorf` calls of `initDB`; `closing` mirrors the
wrapping in `StmtCache.Close`; `msg` stands for arbitrary engine errors. -/
inductive Err where
  | appIdMismatch (stored schemaId : Int) : Err
  | versionTooHigh (stored latest : Int) : Err
  | panicIndex : Err
  | msg (s : String) : Err
  | closing (q : String) (e : Err) : Err
deriving DecidableEq, Repr

/-! ## SqlSchema (src/schema.go) -/

/-- Embeds Go's `SqlSchema`: an application id and the ordered list of
migration scripts (index 0 = root schema, version `k` = index `k-1`).
In Go the default `ID` is the CRC32C checksum of the root script; the
checksum computation is irrelevant to the claims, so `ID` is a field. -/
structure SqlSchema where
  ID : Int
  versions : List String
deriving DecidableEq, Repr

/-- Embeds `SqlSchema.LatestVersion`: `int32(len(s.versions))`. -/
def SqlSchema.LatestVersion (s : SqlSchema) : Int :=
  (s.versions.length : Int)

/-- Embeds `NewSqlSchema`: a schema whose version list holds just the root
script.  (`id` stands for the CRC32C of `rootSchema`.) -/
def NewSqlSchema (id : Int) (rootSchema : String) : SqlSchema :=
  { ID := id, versions := [rootSchema] }

/-- Embeds `SqlSchema.DefineUpgrade`.  The Go function panics when
`len(s.versions)+1 != newVersion`; the panic is modelled as `none`. -/
def SqlSchema.DefineUpgrade (s : SqlSchema) (newVersion : Int) (newSchema : String) :
    Option SqlSchema :=
  if (s.versions.length : Int) + 1 ≠ newVersion then none
  else some { s with versions := s.versions ++ [newSchema] }

/-! ## Transaction-handle state and `SqlSchema.Upgrade` -/

/-- State visible through a transaction handle: the two PRAGMA metadata
slots (`application_id`, `user_version`) and the ordered log of scripts
executed so far via `Exec` (modelling the tables the scripts create). -/
structure TxState where
  appId : Int
  userVersion : Int
  execLog : List String
deriving DecidableEq, Repr

/-- Indexing `s.versions[i]` with a Go `int32` index: out-of-range access
(negative or past the end) is a Go panic, modelled as `none`. -/
def idxRead (versions : List String) (i : Int) : Option String :=
  if 0 ≤ i then versions.get? i.toNat else none

/-- Embeds the loop of `SqlSchema.Upgrade`:
`for i := currentVersion; i < newVersion; i++ { tx.Exec(s.versions[i]) }`.
`exec` is the engine oracle giving each script's execution outcome; every
script handed to `Exec` is appended to the log (the failing one included,
since it was executed and returned the error). -/
def upgradeLoop (exec : String → Option Err) (versions : List String)
    (st : TxState) (i stop : Int) : TxState × Option Err :=
  if h : i < stop then
    match idxRead versions i with
    | none => (st, some Err.panicIndex)
    | some script =>
      match exec script with
      | some e => ({ st with execLog := st.execLog ++ [script] }, some e)
      | none =>
        upgradeLoop exec versions { st with execLog := st.execLog ++ [script] } (i + 1) stop
  else (st, none)
termination_by (stop - i).toNat
decreasing_by omega

/-- Embeds `SqlSchema.Upgrade`: runs the loop from `currentVersion` up to
`LatestVersion`, returning `(-1, err)` on the first script error and
`(LatestVersion, nil)` on success, together with the transaction state. -/
def SqlSchema.Upgrade (s : SqlSchema) (exec : String → Option Err)
    (st : TxState) (currentVersion : Int) : Int × TxState × Option Err :=
  let newVersion := s.LatestVersion
  match upgradeLoop exec s.versions st currentVersion newVersion with
  | (st', some e) => (-1, st', some e)
  | (st', none) => (newVersion, st', none)

/-- Reference runner used to state what the upgrade loop executes: run a
list of scripts in order, logging each script handed to `Exec` and
stopping at the first error. -/
def runScripts (exec : String → Option Err) : TxState → List String → TxState × Option Err
  | st, [] => (st, none)
  | st, q :: rest =>
    match exec q with
    | some e => ({ st with execLog := st.execLog ++ [q] }, some e)
    | none => runScripts exec { st with execLog := st.execLog ++ [q] } rest

/-! ## VersionStorer / Schema interfaces and `initDB` (src/schema.go) -/

/-- Embeds the Go `VersionStorer` interface over transaction states `σ`. -/
structure VStorer (σ : Type) where
  getAppId : σ → Except Err (Int × σ)
  setAppId : Int → σ → Except Err σ
  getUserVersion : σ → Except Err (Int × σ)
  setUserVersion : Int → σ → Except Err σ

/-- Embeds the Go `Schema` interface over transaction states `σ`; `upgrade`
returns `(newVersion, state, err)` like Go's `(int32, error)` pair with the
handle's side effects. -/
structure SchemaIface (σ : Type) where
  applicationId : Int
  latestVersion : Int
  upgrade : σ → Int → Int × σ × Option Err

/-- Embeds the closure passed to `db.WrapTx` inside `initDB`
(src/schema.go lines 79-108), step for step. -/
def initBody {σ : Type} (vs : VStorer σ) (schema : SchemaIface σ) (st : σ) :
    Except Err σ :=
  match vs.getAppId st with
  | .error e => .error e
  | .ok (applicationId, st) =>
    if applicationId ≠ 0 ∧ applicationId ≠ schema.applicationId then
      .error (Err.appIdMismatch applicationId schema.applicationId)
    else
      match vs.setAppId schema.applicationId st with
      | .error e => .error e
      | .ok st =>
        match vs.getUserVersion st with
        | .error e => .error e
        | .ok (userVersion, st) =>
          if userVersion > schema.latestVersion then
            .error (Err.versionTooHigh userVersion schema.latestVersion)
          else
            match schema.upgrade st userVersion with
            | (_, _, some e) => .error e
            | (newVersion, st, none) => vs.setUserVersion newVersion st

/-! ## WrapTx (src/db.go lines 147-172) -/

/-- Operations `WrapTx` performs on the underlying transaction. -/
inductive TxOp where
  | beginTx : TxOp
  | rollback : TxOp
  | commit : TxOp
deriving DecidableEq, Repr

/-- Outcome of one `WrapTx` call: the returned error (`none` = nil), the
committed (on-disk) state afterwards, the transaction operations performed
in order, and whether the call ended in a Go panic instead of returning. -/
structure TxResult (σ : Type) where
  result : Option Err
  state : σ
  ops : List TxOp
  panicked : Bool
deriving DecidableEq, Repr

/-- Embeds `DB.WrapTx`.  The work function `f` is a pure transformer of the
transaction state (starting from the committed state); `beginErr`,
`commitErr` and `rollbackErr` are the engine's outcomes for the respective
calls.  Exactly one of commit/rollback runs: the deferred `sync.Once`
rollback fires only on the error path, and the commit disarms it.  A
rollback failure is Go `panic(err)` (`panicked := true`); a failed commit
leaves the committed state unchanged. -/
def wrapTx {σ : Type} (beginErr commitErr rollbackErr : Option Err)
    (f : σ → Except Err σ) (committed : σ) : TxResult σ :=
  match beginErr with
  | some e => ⟨some e, committed, [TxOp.beginTx], false⟩
  | none =>
    match f committed with
    | .error e =>
      match rollbackErr with
      | some _ => ⟨none, committed, [TxOp.beginTx, TxOp.rollback], true⟩
      | none => ⟨some e, committed, [TxOp.beginTx, TxOp.rollback], false⟩
    | .ok st =>
      match commitErr with
      | some e => ⟨some e, committed, [TxOp.beginTx, TxOp.commit], false⟩
      | none => ⟨none, st, [TxOp.beginTx, TxOp.commit], false⟩

/-- Embeds `initDB`: `db.WrapTx(initBody)`. -/
def initDB {σ : Type} (beginErr commitErr rollbackErr : Option Err)
    (vs : VStorer σ) (schema : SchemaIface σ) (committed : σ) : TxResult σ :=
  wrapTx beginErr commitErr rollbackErr (initBody vs schema) committed

/-- What `Open` returns as observed by the caller: a usable session
(`some ()`) or none, the error, and the resulting on-disk state.  Mirrors
`Open`'s tail: on `initDB` error the session is discarded and only the
error returned. -/
structure OpenResult (σ : Type) where
  session : Option Unit
  err : Option Err
  disk : σ
deriving DecidableEq, Repr

/-- Embeds the decision `Open` makes on `initDB`'s outcome (with healthy
begin/commit/rollback machinery). -/
def openDB {σ : Type} (vs : VStorer σ) (schema : SchemaIface σ) (committed : σ) :
    OpenResult σ :=
  let r := initDB none none none vs schema committed
  match r.result with
  | some e => ⟨none, some e, r.state⟩
  | none => ⟨some (), none, r.state⟩

/-- Embeds `SqliteVersion` acting on the two PRAGMA slots of a `TxState`
(the pragma statements themselves always succeed in this model; engine
failures of the version store are not needed by any claim about it). -/
def sqliteVS : VStorer TxState where
  getAppId st := .ok (st.appId, st)
  setAppId v st := .ok { st with appId := v }
  getUserVersion st := .ok (st.userVersion, st)
  setUserVersion v st := .ok { st with userVersion := v }

/-- Packages a `SqlSchema` (with engine oracle `exec`) as the `Schema`
interface used by `initDB`. -/
def sqlSchemaIface (exec : String → Option Err) (s : SqlSchema) : SchemaIface TxState where
  applicationId := s.ID
  latestVersion := s.LatestVersion
  upgrade st v := s.Upgrade exec st v

/-! ## StmtCache (src/unnamed/part_003, lines 43-137)

Statement objects are modelled by `Nat` identifiers drawn from a counter,
so "the identical statement object" is "the same id" and a freshly
prepared statement always has an id never returned before.  The
`sync.Map` is an association list keyed by the query string; the
`sync.Once` of each statement's closer is the `onceUsed` set; statements
whose underlying `sqlx.Stmt` has been closed are `closedStmts`.  The
engine oracles are `pe` (error preparing a query, nil = success) and
`ce` (error closing the underlying statement with a given id). -/

/-- Lookup in the cache's map (first entry with the key). -/
def lookupCache (m : List (String × Nat)) (q : String) : Option Nat :=
  match m with
  | [] => none
  | p :: rest => if p.1 = q then some p.2 else lookupCache rest q

/-- Remove every entry with key `q` (sync.Map Delete). -/
def eraseKey (q : String) : List (String × Nat) → List (String × Nat)
  | [] => []
  | p :: rest => if p.1 = q then eraseKey q rest else p :: eraseKey q rest

/-- Store `q ↦ v` (sync.Map Store / the storing arm of LoadOrStore). -/
def insertKey (q : String) (v : Nat) (m : List (String × Nat)) :
    List (String × Nat) :=
  (q, v) :: eraseKey q m

/-- Embeds `sync.Map.CompareAndDelete(q, i)`: delete the entry for `q`
only if it currently holds exactly `i`. -/
def compareAndDelete (q : String) (i : Nat) (m : List (String × Nat)) :
    List (String × Nat) :=
  if lookupCache m q = some i then eraseKey q m else m

/-- State of one `StmtCache` plus the statements it has handed out. -/
structure CacheState where
  cache : List (String × Nat)
  nextId : Nat
  closedStmts : List Nat
  onceUsed : List Nat
deriving DecidableEq, Repr

/-- Embeds the closer installed on a `Stmt` by `StmtCache.Prepare` (and
hence `Stmt.Close`): under a `sync.Once`, compare-and-delete the cache
entry `(q, i)`, then close the underlying statement and return its error;
once the `Once` has fired, later calls return the zero-valued `err`. -/
def stmtClose (ce : Nat → Option Err) (st : CacheState) (q : String) (i : Nat) :
    Option Err × CacheState :=
  if i ∈ st.onceUsed then (none, st)
  else
    (ce i,
     { st with
        onceUsed := i :: st.onceUsed
        cache := compareAndDelete q i st.cache
        closedStmts := i :: st.closedStmts })

/-- Embeds `StmtCache.Prepare` = `loadOrCalculate` with the preparing
calculator.  `raceInsert` is the interleaving of a concurrent winner: the
value it stored for `q` between this call's failed `Load` and its
`LoadOrStore` (`none` = no concurrent store, the sequential case). -/
def prepare (pe : String → Option Err) (ce : Nat → Option Err)
    (raceInsert : Option Nat) (st : CacheState) (q : String) :
    Except Err Nat × CacheState :=
  match lookupCache st.cache q with
  | some i => (.ok i, st)
  | none =>
    match pe q with
    | some e => (.error e, st)
    | none =>
      let fresh := st.nextId
      let st1 := { st with nextId := st.nextId + 1 }
      let st2 :=
        match raceInsert with
        | some w => { st1 with cache := insertKey q w st1.cache }
        | none => st1
      match lookupCache st2.cache q with
      | some w =>
        match stmtClose ce st2 q fresh with
        | (some e, st3) => (.error e, st3)
        | (none, st3) => (.ok w, st3)
      | none => (.ok fresh, { st2 with cache := insertKey q fresh st2.cache })

/-- Embeds the body of the `Range` loop of `StmtCache.Close`, iterating
over a snapshot of the entries: delete the key, close the statement, and
on a close error set `allErrs = errors.Join(fmt.Errorf(...))` — note the
single argument: the previous value of `allErrs` is NOT passed to
`errors.Join`, so each failure overwrites the accumulator (this is the
behavior of the source, preserved faithfully). -/
def cacheCloseGo (ce : Nat → Option Err) :
    List (String × Nat) → Option Err → CacheState → Option Err × CacheState
  | [], allErrs, st => (allErrs, st)
  | (q, i) :: rest, allErrs, st =>
    let st1 := { st with cache := eraseKey q st.cache }
    match stmtClose ce st1 q i with
    | (some e, st2) => cacheCloseGo ce rest (some (Err.closing q e)) st2
    | (none, st2) => cacheCloseGo ce rest allErrs st2

/-- Embeds `StmtCache.Close`. -/
def cacheClose (ce : Nat → Option Err) (st : CacheState) :
    Option Err × CacheState :=
  cacheCloseGo ce st.cache none st

/-- Invariant of reachable cache states: cached ids and once-fired ids
were allocated by the counter, and a cached statement's closer has not
fired (a fired closer compare-and-deletes its own entry, and a statement
id never re-enters the cache). -/
def WF (st : CacheState) : Prop :=
  (∀ p ∈ st.cache, p.2 < st.nextId ∧ p.2 ∉ st.onceUsed) ∧
  ∀ i ∈ st.onceUsed, i < st.nextId

/-! ## FallbackVersion (src/unnamed/part_000, lines 21-45) -/

/-- Embeds the shared shape of `FallbackVersion.GetApplicationId` and
`FallbackVersion.GetUserVersion` for a single read: given the primary
store's outcome and the secondary reader's outcome, return the result and
whether the secondary was consulted (`if err != nil || v != 0 { return };
return fallback`). -/
def fallbackGet (primary : Except Err Int) (secondary : Except Err Int) :
    Except Err Int × Bool :=
  match primary with
  | .error e => (.error e, false)
  | .ok v => if v ≠ 0 then (.ok v, false) else (secondary, true)

/-- Process state for the fallback scenario: the on-disk transaction state
plus the secondary reader's process-global call counters (the counters of
`mockReader` in the test live outside the database, so a transaction
rollback would not reset them; all fallback theorems below stay on
rollback-free runs, where `wrapTx` treats the whole state uniformly). -/
structure FTxState where
  prim : TxState
  callA : Nat
  callV : Nat
deriving DecidableEq, Repr

/-- Embeds a `FallbackVersion` whose primary is `SqliteVersion` (acting on
`prim`) and whose secondary is a constant reader returning `fbA` / `fbV`
while counting its calls (the test's `mockReader`).  Each getter is
`fallbackGet` applied to the primary read, with the consultation recorded
in the counter. -/
def fallbackVS (fbA fbV : Int) : VStorer FTxState where
  getAppId st :=
    if st.prim.appId ≠ 0 then .ok (st.prim.appId, st)
    else .ok (fbA, { st with callA := st.callA + 1 })
  setAppId v st := .ok { st with prim := { st.prim with appId := v } }
  getUserVersion st :=
    if st.prim.userVersion ≠ 0 then .ok (st.prim.userVersion, st)
    else .ok (fbV, { st with callV := st.callV + 1 })
  setUserVersion v st := .ok { st with prim := { st.prim with userVersion := v } }

/-- The `SqlSchema` interface lifted to `FTxState` (scripts act on the
database, not on the counters). -/
def sqlSchemaIfaceF (exec : String → Option Err) (s : SqlSchema) :
    SchemaIface FTxState where
  applicationId := s.ID
  latestVersion := s.LatestVersion
  upgrade st v :=
    match s.Upgrade exec st.prim v with
    | (nv, p, e) => (nv, { st with prim := p }, e)

/-- One `Open` of the database with the fallback version storer. -/
def openOnceF (fbA fbV : Int) (exec : String → Option Err) (s : SqlSchema)
    (st : FTxState) : TxResult FTxState :=
  initDB none none none (fallbackVS fbA fbV) (sqlSchemaIfaceF exec s) st

/-- Re-opening the database `n` times in one process: the final state and
the list of the `n` open results in order. -/
def openIterF (fbA fbV : Int) (exec : String → Option Err) (s : SqlSchema) :
    Nat → FTxState → FTxState × List (Option Err)
  | 0, st => (st, [])
  | n + 1, st =>
    let r := openOnceF fbA fbV exec s st
    let (st', results) := openIterF fbA fbV exec s n r.state
    (st', r.result :: results)

/-! ## Backup filename (claim C8)

`backupFilename` itself is not among the provided source files — only its
test `TestBackupFilename` (src/db_test.go lines 26-41) and the doc comment
of `OpenOptions.BackupDir` are.  It is therefore modelled from the spec
below. -/

/-- Split a character list into the groups separated by `c`. -/
def splitOnChar (c : Char) : List Char → List (List Char)
  | [] => [[]]
  | x :: xs =>
    if x = c then [] :: splitOnChar c xs
    else
      match splitOnChar c xs with
      | [] => [[x]]
      | g :: gs => (x :: g) :: gs

/-- The last path component of `file` (Go's `filepath.Base`). -/
def lastComponent (file : String) : String :=
  String.mk ((splitOnChar '/' file.data).getLastD file.data)

/-- Split a file name into base name and extension, the extension being
the (possibly empty) suffix starting at the final dot. -/
def splitExt (name : String) : String × String :=
  match splitOnChar '.' name.data with
  | [] => (name, "")
  | [_] => (name, "")
  | parts =>
    (String.mk (List.intercalate ['.'] parts.dropLast),
     String.mk ('.' :: parts.getLastD []))

/-- Modelled from the spec: the function `backupFilename` is missing from
src/ (only its test and the `OpenOptions.BackupDir` doc comment appear).
Per the spec's naming rule, with source base name `B`, extension `E`
(possibly empty) and the target version `V` being upgraded to, the backup
is named `B.before_vV_upgrade` followed by `.E` when `E` is non-empty,
placed in the backup directory.  (In the code's caller, `V` is the
schema's `LatestVersion`.) -/
def backupFilename (backupDir file : String) (targetVersion : Nat) : String :=
  let base := lastComponent file
  let be := splitExt base
  backupDir ++ "/" ++ be.1 ++ ".before_v" ++ toString targetVersion ++ "_upgrade" ++ be.2

/-! # Theorems -/

/-! ## Helper lemmas about lists and the upgrade loop -/

theorem drop_cons_succ {α : Type} (l : List α) :
    ∀ (n : Nat) (a : α) (rest : List α), l.drop n = a :: rest → l.drop (n + 1) = rest := by
  induction l with
  | nil => intro n a rest h; simp at h
  | cons b t ih =>
    intro n a rest h
    cases n with
    | zero =>
      simp only [List.drop_zero] at h
      cases h
      simp
    | succ m =>
      simp only [List.drop_succ_cons] at h ⊢
      exact ih m a rest h

theorem get?_of_drop_cons {α : Type} (l : List α) :
    ∀ (n : Nat) (a : α) (rest : List α), l.drop n = a :: rest → l.get? n = some a := by
  induction l with
  | nil => intro n a rest h; simp at h
  | cons b t ih =>
    intro n a rest h
    cases n with
    | zero =>
      simp only [List.drop_zero] at h
      cases h
      rfl
    | succ m =>
      simp only [List.drop_succ_cons] at h
      simpa using ih m a rest h

theorem idxRead_natCast (versions : List String) (n : Nat) :
    idxRead versions (n : Int) = versions.get? n := by
  simp [idxRead]

theorem upgradeLoop_eq_runScripts (exec : String → Option Err) (versions : List String) :
    ∀ (d : List String) (v : Nat) (st : TxState), versions.drop v = d →
      upgradeLoop exec versions st (v : Int) (versions.length : Int) =
        runScripts exec st d := by
  intro d
  induction d with
  | nil =>
    intro v st hd
    have hv : versions.length ≤ v := List.drop_eq_nil_iff_le.mp hd
    rw [upgradeLoop]
    rw [dif_neg (by exact_mod_cast Nat.not_lt.mpr hv)]
    rfl
  | cons a rest ih =>
    intro d st hd
    have hget : versions.get? d = some a := get?_of_drop_cons versions d a rest hd
    have hvlt : d < versions.length := by
      by_contra hle
      rw [List.drop_eq_nil_iff_le.mpr (Nat.le_of_not_lt hle)] at hd
      exact absurd hd (by simp)
    rw [upgradeLoop]
    rw [dif_pos (by exact_mod_cast hvlt)]
    have hidx : idxRead versions (d : Int) = some a :=
      (idxRead_natCast versions d).trans hget
    rw [hidx, runScripts]
    cases hx : exec a with
    | some e => simp [hx]
    | none =>
      simp only [hx]
      have hcast : ((d : Int) + 1) = ((d + 1 : Nat) : Int) := by push_cast; ring
      rw [hcast]
      exact ih (d + 1) _ (drop_cons_succ versions d a rest hd)

theorem runScripts_ok (exec : String → Option Err) :
    ∀ (l : List String) (st : TxState), (∀ q ∈ l, exec q = none) →
      runScripts exec st l = ({ st with execLog := st.execLog ++ l }, none) := by
  intro l
  induction l with
  | nil => intro st _; simp [runScripts]
  | cons q rest ih =>
    intro st h
    have hq : exec q = none := h q (List.mem_cons_self q rest)
    rw [runScripts]
    simp only [hq]
    rw [ih _ (fun p hp => h p (List.mem_cons_of_mem q hp))]
    simp

theorem runScripts_fail (exec : String → Option Err) :
    ∀ (pre : List String) (st : TxState) (q : String) (rest : List String) (e : Err),
      (∀ p ∈ pre, exec p = none) → exec q = some e →
      runScripts exec st (pre ++ q :: rest) =
        ({ st with execLog := st.execLog ++ (pre ++ [q]) }, some e) := by
  intro pre
  induction pre with
  | nil =>
    intro st q rest e _ hq
    simp only [List.nil_append]
    rw [runScripts]
    simp [hq]
  | cons p pre' ih =>
    intro st q rest e hpre hq
    have hp : exec p = none := hpre p (List.mem_cons_self _ _)
    simp only [List.cons_append]
    rw [runScripts]
    simp only [hp]
    rw [ih _ q rest e (fun r hr => hpre r (List.mem_cons_of_mem p hr)) hq]
    simp

theorem upgrade_ok (s : SqlSchema) (exec : String → Option Err) (st : TxState)
    (v : Nat) (hall : ∀ q ∈ s.versions.drop v, exec q = none) :
    s.Upgrade exec st (v : Int) =
      ((s.versions.length : Int),
       { st with execLog := st.execLog ++ s.versions.drop v }, none) := by
  simp only [SqlSchema.Upgrade, SqlSchema.LatestVersion]
  rw [upgradeLoop_eq_runScripts exec s.versions (s.versions.drop v) v st rfl]
  rw [runScripts_ok exec _ st hall]

theorem upgrade_fail (s : SqlSchema) (exec : String → Option Err) (st : TxState)
    (v : Nat) (pre : List String) (q : String) (rest : List String) (e : Err)
    (hsplit : s.versions.drop v = pre ++ q :: rest)
    (hpre : ∀ p ∈ pre, exec p = none) (hq : exec q = some e) :
    s.Upgrade exec st (v : Int) =
      (-1, { st with execLog := st.execLog ++ (pre ++ [q]) }, some e) := by
  simp only [SqlSchema.Upgrade, SqlSchema.LatestVersion]
  rw [upgradeLoop_eq_runScripts exec s.versions (s.versions.drop v) v st rfl]
  rw [hsplit, runScripts_fail exec pre st q rest e hpre hq]

theorem initBody_ok (s : SqlSchema) (exec : String → Option Err)
    (committed : TxState) (v : Nat) (hver : committed.userVersion = (v : Int))
    (happ : committed.appId = 0 ∨ committed.appId = s.ID)
    (hv : v ≤ s.versions.length)
    (hall : ∀ q ∈ s.versions.drop v, exec q = none) :
    initBody sqliteVS (sqlSchemaIface exec s) committed =
      .ok { appId := s.ID, userVersion := (s.versions.length : Int),
            execLog := committed.execLog ++ s.versions.drop v } := by
  simp only [initBody, sqliteVS, sqlSchemaIface]
  rw [if_neg (by rcases happ with h | h <;> simp [h])]
  rw [hver]
  rw [if_neg (by
    simp only [SqlSchema.LatestVersion, not_lt]
    exact_mod_cast hv)]
  rw [upgrade_ok s exec _ v hall]

/-- C1: for a schema with latest registered version `N = s.versions.length`
and any stored userVersion `v` with `0 ≤ v ≤ N`, the upgrade executes exactly
the migration scripts at 0-based indices `v` through `N-1` against the
transaction handle, in ascending index order (the execution log extends by
`s.versions.drop v`), stopping and failing immediately on the first script
whose execution returns an error; and on success `initDB` writes the latest
version `N` back as the new stored userVersion and the transaction commits. -/
theorem c1_upgrade_runs_pending_scripts (s : SqlSchema) (exec : String → Option Err)
    (st : TxState) (v : Nat) (hv : v ≤ s.versions.length) :
    ((∀ q ∈ s.versions.drop v, exec q = none) →
      s.Upgrade exec st (v : Int) =
        ((s.versions.length : Int),
         { st with execLog := st.execLog ++ s.versions.drop v }, none)) ∧
    (∀ (pre : List String) (q : String) (rest : List String) (e : Err),
      s.versions.drop v = pre ++ q :: rest →
      (∀ p ∈ pre, exec p = none) → exec q = some e →
      s.Upgrade exec st (v : Int) =
        (-1, { st with execLog := st.execLog ++ (pre ++ [q]) }, some e)) ∧
    (∀ committed : TxState, committed.userVersion = (v : Int) →
      (committed.appId = 0 ∨ committed.appId = s.ID) →
      (∀ q ∈ s.versions.drop v, exec q = none) →
      initDB none none none sqliteVS (sqlSchemaIface exec s) committed =
        ⟨none,
         { appId := s.ID, userVersion := (s.versions.length : Int),
           execLog := committed.execLog ++ s.versions.drop v },
         [TxOp.beginTx, TxOp.commit], false⟩) := by
  refine ⟨fun hall => upgrade_ok s exec st v hall,
    fun pre q rest e hs hp hq => upgrade_fail s exec st v pre q rest e hs hp hq,
    fun committed hver happ hall => ?_⟩
  simp only [initDB, wrapTx, initBody_ok s exec committed v hver happ hv hall]

theorem c1_witness :
    SqlSchema.Upgrade ⟨5, ["a", "b", "c"]⟩ (fun _ => none) ⟨0, 0, []⟩ (1 : Int) =
      (3, ⟨0, 0, ["b", "c"]⟩, none) ∧
    SqlSchema.Upgrade ⟨5, ["a", "b", "c"]⟩
        (fun q => if q = "b" then some (Err.msg "boom") else none) ⟨0, 0, []⟩ (0 : Int) =
      (-1, ⟨0, 0, ["a", "b"]⟩, some (Err.msg "boom")) ∧
    initDB none none none sqliteVS
        (sqlSchemaIface (fun _ => none) ⟨5, ["a", "b", "c"]⟩) ⟨5, 1, []⟩ =
      ⟨none, ⟨5, 3, ["b", "c"]⟩, [TxOp.beginTx, TxOp.commit], false⟩ := by
  refine ⟨?_, ?_, ?_⟩
  · exact (c1_upgrade_runs_pending_scripts ⟨5, ["a", "b", "c"]⟩ (fun _ => none)
      ⟨0, 0, []⟩ 1 (by decide)).1 (by decide)
  · exact (c1_upgrade_runs_pending_scripts ⟨5, ["a", "b", "c"]⟩
      (fun q => if q = "b" then some (Err.msg "boom") else none)
      ⟨0, 0, []⟩ 0 (by decide)).2.1 ["a"] "b" ["c"] (Err.msg "boom") rfl
      (by decide) (by decide)
  · exact (c1_upgrade_runs_pending_scripts ⟨5, ["a", "b", "c"]⟩ (fun _ => none)
      ⟨0, 0, []⟩ 1 (by decide)).2.2 ⟨5, 1, []⟩ rfl (Or.inr rfl) (by decide)

/-- C2: `Open` returns an error and no session when the stored applicationID
is nonzero and differs from the schema's, and when the stored userVersion
exceeds the schema's latest registered version; in both cases the enclosing
transaction is rolled back, leaving the on-disk state at its pre-open
value. -/
theorem c2_open_rejects_mismatch_and_newer (s : SqlSchema) (exec : String → Option Err)
    (committed : TxState) :
    (committed.appId ≠ 0 → committed.appId ≠ s.ID →
      initDB none none none sqliteVS (sqlSchemaIface exec s) committed =
        ⟨some (Err.appIdMismatch committed.appId s.ID), committed,
         [TxOp.beginTx, TxOp.rollback], false⟩ ∧
      openDB sqliteVS (sqlSchemaIface exec s) committed =
        ⟨none, some (Err.appIdMismatch committed.appId s.ID), committed⟩) ∧
    ((committed.appId = 0 ∨ committed.appId = s.ID) →
      committed.userVersion > s.LatestVersion →
      initDB none none none sqliteVS (sqlSchemaIface exec s) committed =
        ⟨some (Err.versionTooHigh committed.userVersion s.LatestVersion), committed,
         [TxOp.beginTx, TxOp.rollback], false⟩ ∧
      openDB sqliteVS (sqlSchemaIface exec s) committed =
        ⟨none, some (Err.versionTooHigh committed.userVersion s.LatestVersion),
         committed⟩) := by
  constructor
  · intro h0 hne
    have hbody : initBody sqliteVS (sqlSchemaIface exec s) committed =
        .error (Err.appIdMismatch committed.appId s.ID) := by
      simp only [initBody, sqliteVS, sqlSchemaIface]
      rw [if_pos ⟨h0, hne⟩]
    constructor
    · simp only [initDB, wrapTx, hbody]
    · simp only [openDB, initDB, wrapTx, hbody]
  · intro happ hver
    have hbody : initBody sqliteVS (sqlSchemaIface exec s) committed =
        .error (Err.versionTooHigh committed.userVersion s.LatestVersion) := by
      simp only [initBody, sqliteVS, sqlSchemaIface]
      rw [if_neg (by rcases happ with h | h <;> simp [h])]
      rw [if_pos hver]
    constructor
    · simp only [initDB, wrapTx, hbody]
    · simp only [openDB, initDB, wrapTx, hbody]

theorem c2_witness :
    initDB none none none sqliteVS
        (sqlSchemaIface (fun _ => none) ⟨5, ["a", "b"]⟩) ⟨7, 1, []⟩ =
      ⟨some (Err.appIdMismatch 7 5), ⟨7, 1, []⟩,
       [TxOp.beginTx, TxOp.rollback], false⟩ ∧
    openDB sqliteVS (sqlSchemaIface (fun _ => none) ⟨5, ["a"]⟩) ⟨5, 3, []⟩ =
      ⟨none, some (Err.versionTooHigh 3 1), ⟨5, 3, []⟩⟩ := by
  constructor
  · exact ((c2_open_rejects_mismatch_and_newer ⟨5, ["a", "b"]⟩ (fun _ => none)
      ⟨7, 1, []⟩).1 (by decide) (by decide)).1
  · exact ((c2_open_rejects_mismatch_and_newer ⟨5, ["a"]⟩ (fun _ => none)
      ⟨5, 3, []⟩).2 (Or.inr rfl) (by norm_num [SqlSchema.LatestVersion])).2

/-- C3: for every work function passed to `WrapTx` (with healthy begin and
rollback machinery): if the work function returns an error, the transaction
is rolled back and exactly that error is returned unchanged; if it returns
nil, a commit is attempted, `WrapTx` returns the commit's error (nil on
commit success, in which case the work function's state is committed), and
no rollback is performed after the commit attempt. -/
theorem c3_wraptx_error_propagation {σ : Type} (f : σ → Except Err σ)
    (committed : σ) (commitErr : Option Err) :
    (∀ e : Err, f committed = .error e →
      wrapTx none commitErr none f committed =
        ⟨some e, committed, [TxOp.beginTx, TxOp.rollback], false⟩) ∧
    (∀ st : σ, f committed = .ok st →
      (wrapTx none commitErr none f committed).result = commitErr ∧
      (wrapTx none commitErr none f committed).ops = [TxOp.beginTx, TxOp.commit] ∧
      TxOp.rollback ∉ (wrapTx none commitErr none f committed).ops ∧
      (commitErr = none → (wrapTx none commitErr none f committed).state = st)) := by
  constructor
  · intro e he
    simp [wrapTx, he]
  · intro st hst
    cases commitErr with
    | none => simp [wrapTx, hst]
    | some e => simp [wrapTx, hst]

theorem c3_witness :
    wrapTx none none none (fun _ : Nat => Except.error (Err.msg "x")) 0 =
      ⟨some (Err.msg "x"), 0, [TxOp.beginTx, TxOp.rollback], false⟩ ∧
    (wrapTx none none none (fun n : Nat => Except.ok (n + 1)) 0).result = none ∧
    (wrapTx none none none (fun n : Nat => Except.ok (n + 1)) 0).state = 1 :=
  ⟨(c3_wraptx_error_propagation _ 0 none).1 (Err.msg "x") rfl,
   ((c3_wraptx_error_propagation _ 0 none).2 1 rfl).1,
   ((c3_wraptx_error_propagation _ 0 none).2 1 rfl).2.2.2 rfl⟩

/-- C9: `DefineUpgrade` is strictly incremental: it faults (panics) exactly
when `newVersion` differs from the number of already-registered versions
plus one (the root schema counting as version 1), and otherwise appends the
script as the new highest version, raising `LatestVersion` by one. -/
theorem c9_define_upgrade_strictly_incremental (s : SqlSchema) (newVersion : Int)
    (newSchema : String) :
    (s.DefineUpgrade newVersion newSchema = none ↔
      newVersion ≠ (s.versions.length : Int) + 1) ∧
    ∀ s' : SqlSchema, s.DefineUpgrade newVersion newSchema = some s' →
      s'.versions = s.versions ++ [newSchema] ∧
      s'.LatestVersion = s.LatestVersion + 1 ∧ s'.ID = s.ID := by
  by_cases h : (s.versions.length : Int) + 1 = newVersion
  · constructor
    · simp [SqlSchema.DefineUpgrade, h]
    · intro s' hs'
      simp only [SqlSchema.DefineUpgrade, h, ne_eq, not_true_eq_false,
        if_false, Option.some.injEq] at hs'
      subst hs'
      refine ⟨rfl, ?_, rfl⟩
      simp [SqlSchema.LatestVersion]
  · constructor
    · simp only [SqlSchema.DefineUpgrade, ne_eq, h, not_false_eq_true, if_true]
      exact ⟨fun _ hc => h hc.symm, fun _ => trivial⟩
    · intro s' hs'
      simp [SqlSchema.DefineUpgrade, h] at hs'

theorem c9_witness :
    ((⟨7, ["root"]⟩ : SqlSchema).DefineUpgrade 3 "up" = none ↔ (3 : Int) ≠ 1 + 1) ∧
    ((⟨7, ["root", "up"]⟩ : SqlSchema).versions = ["root"] ++ ["up"] ∧
      (⟨7, ["root", "up"]⟩ : SqlSchema).LatestVersion =
        (⟨7, ["root"]⟩ : SqlSchema).LatestVersion + 1 ∧
      (⟨7, ["root", "up"]⟩ : SqlSchema).ID = (⟨7, ["root"]⟩ : SqlSchema).ID) :=
  ⟨(c9_define_upgrade_strictly_incremental ⟨7, ["root"]⟩ 3 "up").1,
   (c9_define_upgrade_strictly_incremental ⟨7, ["root"]⟩ 2 "up").2
     ⟨7, ["root", "up"]⟩ rfl⟩

/-! ## Helper lemmas about the statement cache -/

theorem lookupCache_insert_self (q : String) (v : Nat) (m : List (String × Nat)) :
    lookupCache (insertKey q v m) q = some v := by
  simp [insertKey, lookupCache]

theorem lookupCache_erase_self (q : String) (m : List (String × Nat)) :
    lookupCache (eraseKey q m) q = none := by
  induction m with
  | nil => rfl
  | cons p rest ih =>
    by_cases h : p.1 = q
    · simp [eraseKey, h, ih]
    · simp [eraseKey, lookupCache, h, ih]

theorem mem_of_lookupCache : ∀ {m : List (String × Nat)} {q : String} {i : Nat},
    lookupCache m q = some i → (q, i) ∈ m := by
  intro m
  induction m with
  | nil => intro q i h; simp [lookupCache] at h
  | cons p rest ih =>
    intro q i h
    obtain ⟨a, b⟩ := p
    by_cases hp : a = q
    · subst hp
      simp only [lookupCache, if_pos] at h
      cases h
      exact List.mem_cons_self _ _
    · simp only [lookupCache, if_neg hp] at h
      exact List.mem_cons_of_mem _ (ih h)

theorem mem_eraseKey {q : String} : ∀ {m : List (String × Nat)} {p : String × Nat},
    p ∈ eraseKey q m → p ∈ m ∧ p.1 ≠ q := by
  intro m
  induction m with
  | nil => intro p h; simp [eraseKey] at h
  | cons hd rest ih =>
    intro p h
    by_cases hq : hd.1 = q
    · rw [eraseKey, if_pos hq] at h
      obtain ⟨hm, hne⟩ := ih h
      exact ⟨List.mem_cons_of_mem _ hm, hne⟩
    · rw [eraseKey, if_neg hq] at h
      rcases List.mem_cons.mp h with hph | hpr
      · subst hph
        exact ⟨List.mem_cons_self _ _, hq⟩
      · obtain ⟨hm, hne⟩ := ih hpr
        exact ⟨List.mem_cons_of_mem _ hm, hne⟩

theorem stmtClose_nextId (ce : Nat → Option Err) (st : CacheState) (q : String) (i : Nat) :
    (stmtClose ce st q i).2.nextId = st.nextId := by
  by_cases h : i ∈ st.onceUsed <;> simp [stmtClose, h]

theorem stmtClose_cache_cases (ce : Nat → Option Err) (st : CacheState) (q : String) (i : Nat) :
    (stmtClose ce st q i).2.cache = st.cache ∨
      (stmtClose ce st q i).2.cache = eraseKey q st.cache := by
  by_cases h : i ∈ st.onceUsed
  · left; simp [stmtClose, h]
  · by_cases h2 : lookupCache st.cache q = some i
    · right; simp [stmtClose, h, compareAndDelete, h2]
    · left; simp [stmtClose, h, compareAndDelete, h2]

theorem mem_stmtClose_cache {ce : Nat → Option Err} {st : CacheState} {q : String}
    {i : Nat} {p : String × Nat} (hp : p ∈ (stmtClose ce st q i).2.cache) :
    p ∈ st.cache := by
  rcases stmtClose_cache_cases ce st q i with h | h <;> rw [h] at hp
  · exact hp
  · exact (mem_eraseKey hp).1

theorem cacheCloseGo_nextId (ce : Nat → Option Err) :
    ∀ (l : List (String × Nat)) (a : Option Err) (st : CacheState),
      (cacheCloseGo ce l a st).2.nextId = st.nextId := by
  intro l
  induction l with
  | nil => intro a st; rfl
  | cons hd rest ih =>
    intro a st
    obtain ⟨q, i⟩ := hd
    rw [cacheCloseGo]
    rcases hsc : stmtClose ce { st with cache := eraseKey q st.cache } q i with ⟨e, st2⟩
    have h2 : st2.nextId = st.nextId := by
      have h3 := stmtClose_nextId ce { st with cache := eraseKey q st.cache } q i
      rw [hsc] at h3
      exact h3
    cases e <;> simp only [] <;> rw [ih] <;> exact h2

theorem cacheCloseGo_cache_nil (ce : Nat → Option Err) :
    ∀ (l : List (String × Nat)) (a : Option Err) (st : CacheState),
      (∀ p ∈ st.cache, p.1 ∈ l.map Prod.fst) →
      (cacheCloseGo ce l a st).2.cache = [] := by
  intro l
  induction l with
  | nil =>
    intro a st h
    have hnil : st.cache = [] := by
      cases hc : st.cache with
      | nil => rfl
      | cons p r => exact absurd (h p (hc ▸ List.mem_cons_self p r)) (by simp)
    rw [cacheCloseGo]
    exact hnil
  | cons hd rest ih =>
    intro a st h
    obtain ⟨q, i⟩ := hd
    rw [cacheCloseGo]
    rcases hsc : stmtClose ce { st with cache := eraseKey q st.cache } q i with ⟨e, st2⟩
    have hsub : ∀ p ∈ st2.cache, p.1 ∈ rest.map Prod.fst := by
      intro p hp
      have hp1 : p ∈ eraseKey q st.cache := by
        have hpm : p ∈ (stmtClose ce { st with cache := eraseKey q st.cache } q i).2.cache := by
          rw [hsc]; exact hp
        exact mem_stmtClose_cache hpm
      obtain ⟨hpm, hpq⟩ := mem_eraseKey hp1
      have hin := h p hpm
      simp only [List.map_cons, List.mem_cons] at hin
      rcases hin with hq | hr
      · exact absurd hq hpq
      · exact hr
    cases e <;> simp only [] <;> exact ih _ st2 hsub

theorem cacheClose_empties (ce : Nat → Option Err) (st : CacheState) :
    (cacheClose ce st).2.cache = [] ∧ (cacheClose ce st).2.nextId = st.nextId :=
  ⟨cacheCloseGo_cache_nil ce st.cache none st (fun p hp => List.mem_map_of_mem Prod.fst hp),
   cacheCloseGo_nextId ce st.cache none st⟩

/-! ## Claims about the statement cache -/

/-- C10: closing a `Stmt` obtained from `StmtCache.Prepare` is idempotent:
only the first `Close` call compare-and-deletes the statement's cache entry
and closes the underlying statement, returning the underlying close error;
every subsequent `Close` on the same statement does nothing and returns
nil, even when the first `Close` returned an error. -/
theorem c10_stmt_close_idempotent (ce : Nat → Option Err) (st : CacheState)
    (q : String) (i : Nat) (h : i ∉ st.onceUsed) :
    (stmtClose ce st q i).1 = ce i ∧
    (stmtClose ce st q i).2.cache = compareAndDelete q i st.cache ∧
    i ∈ (stmtClose ce st q i).2.closedStmts ∧
    stmtClose ce (stmtClose ce st q i).2 q i = (none, (stmtClose ce st q i).2) ∧
    ∀ st2 : CacheState, i ∈ st2.onceUsed → stmtClose ce st2 q i = (none, st2) := by
  refine ⟨by simp [stmtClose, h], by simp [stmtClose, h], by simp [stmtClose, h],
    ?_, fun st2 h2 => by simp [stmtClose, h2]⟩
  have hmem : i ∈ (stmtClose ce st q i).2.onceUsed := by simp [stmtClose, h]
  simp [stmtClose, h, hmem]

theorem c10_witness :
    (stmtClose (fun _ => some (Err.msg "x")) ⟨[("q", 1)], 2, [], []⟩ "q" 1).1 =
      some (Err.msg "x") ∧
    stmtClose (fun _ => some (Err.msg "x"))
        (stmtClose (fun _ => some (Err.msg "x")) ⟨[("q", 1)], 2, [], []⟩ "q" 1).2 "q" 1 =
      (none, (stmtClose (fun _ => some (Err.msg "x")) ⟨[("q", 1)], 2, [], []⟩ "q" 1).2) := by
  have h := c10_stmt_close_idempotent (fun _ => some (Err.msg "x"))
    ⟨[("q", 1)], 2, [], []⟩ "q" 1 (by decide)
  exact ⟨h.1, h.2.2.2.1⟩

/-- C4 as stated is false: when the race is lost and the close of the
just-created loser statement itself fails, `Prepare` returns that close
error and no statement, instead of the winner's statement with a nil
error (`loadOrCalculate` does `if err = fresh.Close(); err != nil
{ return value, err }`). -/
theorem c4_counterexample :
    (prepare (fun _ => none) (fun _ => some (Err.msg "boom")) (some 5)
        ⟨[], 0, [], []⟩ "q").1 = .error (Err.msg "boom") ∧
    ∀ i : Nat,
      (prepare (fun _ => none) (fun _ => some (Err.msg "boom")) (some 5)
          ⟨[], 0, [], []⟩ "q").1 ≠ .ok i := by
  refine ⟨rfl, fun i h => ?_⟩
  have h2 : (Except.error (Err.msg "boom") : Except Err Nat) = Except.ok i := h
  exact Except.noConfusion h2

/-- C4 (amended): when a `Prepare` loses the insert-if-absent race (the
winner stored `w` for the same key between this call's failed `Load` and
its `LoadOrStore`), the loser's just-created statement — never registered
in the cache — is closed; if that close succeeds, `Prepare` returns the
winner's cached statement with a nil error, and if the close fails,
`Prepare` returns that close error instead. -/
theorem c4_lost_race_returns_winner (pe : String → Option Err) (ce : Nat → Option Err)
    (w : Nat) (st : CacheState) (q : String)
    (hmiss : lookupCache st.cache q = none)
    (hpe : pe q = none)
    (hw : w ≠ st.nextId)
    (honce : st.nextId ∉ st.onceUsed) :
    (ce st.nextId = none →
      prepare pe ce (some w) st q =
        (.ok w,
         ⟨insertKey q w st.cache, st.nextId + 1,
          st.nextId :: st.closedStmts, st.nextId :: st.onceUsed⟩)) ∧
    ∀ e : Err, ce st.nextId = some e →
      prepare pe ce (some w) st q =
        (.error e,
         ⟨insertKey q w st.cache, st.nextId + 1,
          st.nextId :: st.closedStmts, st.nextId :: st.onceUsed⟩) := by
  have hlook : lookupCache (insertKey q w st.cache) q = some w :=
    lookupCache_insert_self q w st.cache
  have hcad : compareAndDelete q st.nextId (insertKey q w st.cache) =
      insertKey q w st.cache := by
    unfold compareAndDelete
    rw [hlook]
    simp [hw]
  constructor
  · intro hce
    simp [prepare, hmiss, hpe, hlook, stmtClose, honce, hce, hcad]
  · intro e hce
    simp [prepare, hmiss, hpe, hlook, stmtClose, honce, hce, hcad]

theorem c4_witness :
    prepare (fun _ => none) (fun _ => none) (some 5) ⟨[], 0, [], []⟩ "q" =
      (.ok 5, ⟨[("q", 5)], 1, [0], [0]⟩) := by
  have h := (c4_lost_race_returns_winner (fun _ => none) (fun _ => none) 5
    ⟨[], 0, [], []⟩ "q" rfl rfl (by decide) (by decide)).1 rfl
  exact h

/-- C6: the code contradicts the spec's "collect every close error":
`StmtCache.Close` calls `errors.Join` with only the newly wrapped error as
argument (not joining it onto `allErrs`), so each close failure overwrites
the previous one.  At the failing input below, both cached statements'
closes fail (`e1` for key "a", `e2` for key "b"; both statements are
closed and removed — `closedStmts = [2, 1]`, the cache is emptied), yet
the returned error holds only the last failure, `e2` for "b". -/
theorem c6_cache_close_drops_earlier_error :
    cacheClose
        (fun i => if i = 1 then some (Err.msg "e1")
          else if i = 2 then some (Err.msg "e2") else none)
        ⟨[("a", 1), ("b", 2)], 3, [], []⟩ =
      (some (Err.closing "b" (Err.msg "e2")), ⟨[], 3, [2, 1], [2, 1]⟩) := by
  rfl

theorem prepare_miss (pe : String → Option Err) (ce : Nat → Option Err)
    (st : CacheState) (q : String)
    (hmiss : lookupCache st.cache q = none) (hpe : pe q = none) :
    prepare pe ce none st q =
      (.ok st.nextId,
       { st with nextId := st.nextId + 1, cache := insertKey q st.nextId st.cache }) := by
  simp [prepare, hmiss, hpe]

theorem c5_tail (pe : String → Option Err) (ce : Nat → Option Err)
    (st1 : CacheState) (q : String) (i1 : Nat)
    (hpe : pe q = none)
    (hlook : lookupCache st1.cache q = some i1)
    (hi1 : i1 < st1.nextId)
    (honce : i1 ∉ st1.onceUsed) :
    prepare pe ce none st1 q = (.ok i1, st1) ∧
    ∃ (i3 : Nat) (st3 : CacheState),
      prepare pe ce none (stmtClose ce st1 q i1).2 q = (.ok i3, st3) ∧ i3 ≠ i1 ∧
      ∃ (i5 : Nat) (st5 : CacheState),
        prepare pe ce none (cacheClose ce st3).2 q = (.ok i5, st5) ∧ i5 ≠ i3 := by
  have hst2cache : (stmtClose ce st1 q i1).2.cache = eraseKey q st1.cache := by
    simp [stmtClose, honce, compareAndDelete, hlook]
  have hst2next : (stmtClose ce st1 q i1).2.nextId = st1.nextId :=
    stmtClose_nextId ce st1 q i1
  have hmiss2 : lookupCache (stmtClose ce st1 q i1).2.cache q = none := by
    rw [hst2cache]
    exact lookupCache_erase_self q st1.cache
  have hprep3 := prepare_miss pe ce (stmtClose ce st1 q i1).2 q hmiss2 hpe
  refine ⟨by simp [prepare, hlook], (stmtClose ce st1 q i1).2.nextId, _, hprep3,
    by omega, ?_⟩
  set st3 := { (stmtClose ce st1 q i1).2 with
    nextId := (stmtClose ce st1 q i1).2.nextId + 1,
    cache := insertKey q (stmtClose ce st1 q i1).2.nextId
      (stmtClose ce st1 q i1).2.cache } with hst3
  have hst4cache : (cacheClose ce st3).2.cache = [] := (cacheClose_empties ce st3).1
  have hst4next : (cacheClose ce st3).2.nextId = (stmtClose ce st1 q i1).2.nextId + 1 :=
    (cacheClose_empties ce st3).2
  have hmiss4 : lookupCache (cacheClose ce st3).2.cache q = none := by
    rw [hst4cache]
    rfl
  refine ⟨(cacheClose ce st3).2.nextId, _, prepare_miss pe ce (cacheClose ce st3).2 q hmiss4 hpe,
    by omega⟩

/-- C5: with byte-identical query text, `Prepare` called twice with no
intervening close returns the identical statement (same id, unchanged
cache); after closing that statement individually, the next `Prepare`
returns a different, freshly prepared statement; and after closing the
whole cache, the next `Prepare` also returns a different statement.
`WF` is the invariant of reachable cache states (ids come from the
counter; a cached statement's closer has not fired). -/
theorem c5_prepare_identity_and_freshness (pe : String → Option Err)
    (ce : Nat → Option Err) (st0 : CacheState) (q : String)
    (hwf : WF st0) (hpe : pe q = none) :
    ∃ (i1 : Nat) (st1 : CacheState),
      prepare pe ce none st0 q = (.ok i1, st1) ∧
      prepare pe ce none st1 q = (.ok i1, st1) ∧
      ∃ (i3 : Nat) (st3 : CacheState),
        prepare pe ce none (stmtClose ce st1 q i1).2 q = (.ok i3, st3) ∧ i3 ≠ i1 ∧
        ∃ (i5 : Nat) (st5 : CacheState),
          prepare pe ce none (cacheClose ce st3).2 q = (.ok i5, st5) ∧ i5 ≠ i3 := by
  cases hm : lookupCache st0.cache q with
  | none =>
    have h1 := prepare_miss pe ce st0 q hm hpe
    have honce : st0.nextId ∉ st0.onceUsed :=
      fun hmem => absurd (hwf.2 st0.nextId hmem) (lt_irrefl _)
    have htail := c5_tail pe ce
      { st0 with nextId := st0.nextId + 1, cache := insertKey q st0.nextId st0.cache }
      q st0.nextId hpe (lookupCache_insert_self q st0.nextId st0.cache)
      (Nat.lt_succ_self _) honce
    exact ⟨st0.nextId, _, h1, htail.1, htail.2⟩
  | some i1 =>
    have h1 : prepare pe ce none st0 q = (.ok i1, st0) := by simp [prepare, hm]
    have hmem := mem_of_lookupCache hm
    have htail := c5_tail pe ce st0 q i1 hpe hm (hwf.1 (q, i1) hmem).1
      (hwf.1 (q, i1) hmem).2
    exact ⟨i1, st0, h1, htail.1, htail.2⟩

theorem c5_witness :
    ∃ (i1 : Nat) (st1 : CacheState),
      prepare (fun _ => none) (fun _ => none) none ⟨[], 0, [], []⟩ "q" = (.ok i1, st1) ∧
      prepare (fun _ => none) (fun _ => none) none st1 "q" = (.ok i1, st1) ∧
      ∃ (i3 : Nat) (st3 : CacheState),
        prepare (fun _ => none) (fun _ => none) none
          (stmtClose (fun _ => none) st1 "q" i1).2 "q" = (.ok i3, st3) ∧ i3 ≠ i1 ∧
        ∃ (i5 : Nat) (st5 : CacheState),
          prepare (fun _ => none) (fun _ => none) none
            (cacheClose (fun _ => none) st3).2 "q" = (.ok i5, st5) ∧ i5 ≠ i3 :=
  c5_prepare_identity_and_freshness (fun _ => none) (fun _ => none)
    ⟨[], 0, [], []⟩ "q" ⟨by simp, by simp⟩ rfl

/-! ## Claims about FallbackVersion and the backup filename -/

theorem upgrade_noop (s : SqlSchema) (exec : String → Option Err) (p : TxState) :
    s.Upgrade exec p s.LatestVersion = (s.LatestVersion, p, none) := by
  simp only [SqlSchema.Upgrade]
  rw [upgradeLoop]
  rw [dif_neg (lt_irrefl _)]

theorem latestVersion_ne_zero (s : SqlSchema) (hne : s.versions ≠ []) :
    s.LatestVersion ≠ 0 := by
  simp only [SqlSchema.LatestVersion]
  have : s.versions.length ≠ 0 := fun h => hne (List.eq_nil_of_length_eq_zero h)
  exact_mod_cast this

theorem openOnceF_steady (fbA fbV : Int) (exec : String → Option Err) (s : SqlSchema)
    (hid : s.ID ≠ 0) (hne : s.versions ≠ []) (st : FTxState)
    (ha : st.prim.appId = s.ID) (hv : st.prim.userVersion = s.LatestVersion) :
    openOnceF fbA fbV exec s st = ⟨none, st, [TxOp.beginTx, TxOp.commit], false⟩ := by
  have hlv := latestVersion_ne_zero s hne
  have hpav : TxState.mk s.ID s.LatestVersion st.prim.execLog = st.prim := by
    rw [← ha, ← hv]
  have hbody : initBody (fallbackVS fbA fbV) (sqlSchemaIfaceF exec s) st = .ok st := by
    simp only [initBody, fallbackVS, sqlSchemaIfaceF]
    simp [ha, hv, hid, hlv, upgrade_noop, hpav]
  simp only [openOnceF, initDB, wrapTx, hbody]

theorem openIterF_steady (fbA fbV : Int) (exec : String → Option Err) (s : SqlSchema)
    (hid : s.ID ≠ 0) (hne : s.versions ≠ []) :
    ∀ (n : Nat) (st : FTxState), st.prim.appId = s.ID →
      st.prim.userVersion = s.LatestVersion →
      openIterF fbA fbV exec s n st = (st, List.replicate n none) := by
  intro n
  induction n with
  | zero => intro st _ _; rfl
  | succ m ih =>
    intro st ha hv
    rw [openIterF]
    rw [openOnceF_steady fbA fbV exec s hid hne st ha hv]
    simp only []
    rw [ih st ha hv]
    rfl

theorem openOnceF_first (fbA fbV : Int) (exec : String → Option Err) (s : SqlSchema)
    (hfa : fbA = 0 ∨ fbA = s.ID)
    (hfv : 0 ≤ fbV) (hfvle : fbV ≤ s.LatestVersion)
    (hall : ∀ q ∈ s.versions, exec q = none) :
    openOnceF fbA fbV exec s ⟨⟨0, 0, []⟩, 0, 0⟩ =
      ⟨none, ⟨⟨s.ID, s.LatestVersion, s.versions.drop fbV.toNat⟩, 1, 1⟩,
       [TxOp.beginTx, TxOp.commit], false⟩ := by
  have hdrop : ∀ q ∈ s.versions.drop fbV.toNat, exec q = none :=
    fun q hq => hall q (List.drop_subset _ _ hq)
  have hfveq : fbV = ((fbV.toNat : Nat) : Int) := (Int.toNat_of_nonneg hfv).symm
  have hfvle' : fbV ≤ (s.versions.length : Int) := by
    simpa [SqlSchema.LatestVersion] using hfvle
  have hup : s.Upgrade exec ⟨s.ID, 0, []⟩ fbV =
      ((s.versions.length : Int), ⟨s.ID, 0, s.versions.drop fbV.toNat⟩, none) := by
    conv_lhs => rw [hfveq]
    rw [upgrade_ok s exec ⟨s.ID, 0, []⟩ fbV.toNat hdrop]
    simp
  have hbody : initBody (fallbackVS fbA fbV) (sqlSchemaIfaceF exec s) ⟨⟨0, 0, []⟩, 0, 0⟩ =
      .ok ⟨⟨s.ID, s.LatestVersion, s.versions.drop fbV.toNat⟩, 1, 1⟩ := by
    simp only [initBody, fallbackVS, sqlSchemaIfaceF]
    rcases hfa with h | h <;> subst h <;>
      simp [hfvle', hup, SqlSchema.LatestVersion]
  simp only [openOnceF, initDB, wrapTx, hbody]

/-- C7: a `FallbackVersion` read consults the secondary reader exactly when
the primary read succeeds and returns zero (first conjunct); once the
primary store holds a non-zero value for a field, the secondary is not
consulted for that field and the primary value is returned unchanged
(second and third conjuncts); and over a whole process that opens the
database `n + 1` times starting from an uninitialized file (both fields
zero), with a compatible fallback identity and all migrations succeeding,
every open succeeds and the secondary is consulted exactly once per field
in total — on the first open only, never again across re-opens (last
conjunct). -/
theorem c7_fallback_consulted_once :
    (∀ primary secondary : Except Err Int,
      (fallbackGet primary secondary).2 = true ↔ primary = .ok 0) ∧
    (∀ (fbA fbV : Int) (st : FTxState), st.prim.appId ≠ 0 →
      (fallbackVS fbA fbV).getAppId st = .ok (st.prim.appId, st)) ∧
    (∀ (fbA fbV : Int) (st : FTxState), st.prim.userVersion ≠ 0 →
      (fallbackVS fbA fbV).getUserVersion st = .ok (st.prim.userVersion, st)) ∧
    ∀ (fbA fbV : Int) (exec : String → Option Err) (s : SqlSchema) (n : Nat),
      s.ID ≠ 0 → s.versions ≠ [] → (fbA = 0 ∨ fbA = s.ID) →
      0 ≤ fbV → fbV ≤ s.LatestVersion → (∀ q ∈ s.versions, exec q = none) →
      (openIterF fbA fbV exec s (n + 1) ⟨⟨0, 0, []⟩, 0, 0⟩).1.callA = 1 ∧
      (openIterF fbA fbV exec s (n + 1) ⟨⟨0, 0, []⟩, 0, 0⟩).1.callV = 1 ∧
      (openIterF fbA fbV exec s (n + 1) ⟨⟨0, 0, []⟩, 0, 0⟩).2 =
        List.replicate (n + 1) none := by
    refine ⟨?_, ?_, ?_, ?_⟩
    · intro primary secondary
      cases primary with
      | error e => simp [fallbackGet]
      | ok v => by_cases h : v = 0 <;> simp [fallbackGet, h]
    · intro fbA fbV st h
      simp [fallbackVS, h]
    · intro fbA fbV st h
      simp [fallbackVS, h]
    · intro fbA fbV exec s n hid hne hfa hfv hfvle hall
      have hfirst := openOnceF_first fbA fbV exec s hfa hfv hfvle hall
      have hsteady := openIterF_steady fbA fbV exec s hid hne n
        ⟨⟨s.ID, s.LatestVersion, s.versions.drop fbV.toNat⟩, 1, 1⟩ rfl rfl
      rw [openIterF, hfirst]
      simp only [hsteady]
      simp [List.replicate_succ]

theorem c7_witness :
    ((fallbackGet (.ok 0) (.ok 7)).2 = true ↔ (Except.ok 0 : Except Err Int) = .ok 0) ∧
    (fallbackVS 1 2).getAppId ⟨⟨9, 3, []⟩, 1, 1⟩ = .ok (9, ⟨⟨9, 3, []⟩, 1, 1⟩) ∧
    (fallbackVS 1 2).getUserVersion ⟨⟨9, 3, []⟩, 1, 1⟩ = .ok (3, ⟨⟨9, 3, []⟩, 1, 1⟩) ∧
    (openIterF 1 2 (fun _ => none) ⟨1, ["a", "b", "c"]⟩ 2 ⟨⟨0, 0, []⟩, 0, 0⟩).1.callA = 1 ∧
    (openIterF 1 2 (fun _ => none) ⟨1, ["a", "b", "c"]⟩ 2 ⟨⟨0, 0, []⟩, 0, 0⟩).1.callV = 1 ∧
    (openIterF 1 2 (fun _ => none) ⟨1, ["a", "b", "c"]⟩ 2 ⟨⟨0, 0, []⟩, 0, 0⟩).2 =
      List.replicate 2 none := by
  have hproc := c7_fallback_consulted_once.2.2.2 1 2 (fun _ => none) ⟨1, ["a", "b", "c"]⟩ 1
    (by decide) (by decide) (Or.inr rfl) (by decide)
    (by norm_num [SqlSchema.LatestVersion]) (by decide)
  exact ⟨c7_fallback_consulted_once.1 (.ok 0) (.ok 7),
    c7_fallback_consulted_once.2.1 1 2 ⟨⟨9, 3, []⟩, 1, 1⟩ (by decide),
    c7_fallback_consulted_once.2.2.1 1 2 ⟨⟨9, 3, []⟩, 1, 1⟩ (by decide),
    hproc.1, hproc.2.1, hproc.2.2⟩

/-- C8: the backup file name derived from the source database file name is
`B.before_vV_upgrade` followed by `.E` when the source has a non-empty
extension `E` (and no extension otherwise), where `B` is the base name and
`V` the version being upgraded to: the three base-name examples of the
claim, rendered inside the backup directory `bar`. -/
theorem c8_backup_filename_examples :
    backupFilename "bar" "foo/test.db" 2 = "bar/test.before_v2_upgrade.db" ∧
    backupFilename "bar" "foo/test" 2 = "bar/test.before_v2_upgrade" ∧
    backupFilename "bar" "foo/test.foo.db" 2 = "bar/test.foo.before_v2_upgrade.db" := by
  refine ⟨rfl, rfl, rfl⟩

end LocalDB

